import Mathlib

/-!
Shallow embedding of the INI configuration parser/serializer
(`ini::Parser` and `ini::detail` from `src/ini_parser.cpp`).

Strings are modelled as `List Char`; the file handed to `load` is modelled
as `Option (List Char)` (`none` = the file cannot be opened), split into
physical lines with `getline` semantics; `save` produces the character
stream it would write.  The `unordered_map` document store is modelled as
an association list with first-match lookup and insert-or-assign update.
-/

namespace IniParser

/-- Error codes of `ini::Parser::ErrorCode`. -/
inductive ErrorCode
  | Success
  | FileNotFound
  | InvalidSection
  | InvalidLine
  | EmptyKey
  | DuplicateKey
  | FileWriteFailed
  | UnmatchedQuotes
  deriving DecidableEq, Repr

/-- A section: key-value pairs (`ini::Parser::Section`). -/
abbrev Sect := List (List Char × List Char)

/-- The document: section name to section (`ini::Parser::Config`). -/
abbrev Config := List (List Char × Sect)

/-- C locale `isspace` on the byte-characters the parser handles. -/
def isSpaceC (c : Char) : Bool :=
  c = ' ' || c = '\t' || c = '\n' || c = '\x0b' || c = '\x0c' || c = '\r'

/-- `ini::detail::trim`: strip leading and trailing whitespace. -/
def trim (l : List Char) : List Char :=
  ((l.dropWhile isSpaceC).reverse.dropWhile isSpaceC).reverse

/-- Translation table applied to the character after a backslash
in `ini::detail::unescape` (the `switch` in its loop). -/
def unescMap (c : Char) : Char :=
  if c = '"' then '"'
  else if c = '\'' then '\''
  else if c = '\\' then '\\'
  else if c = 'n' then '\n'
  else if c = 't' then '\t'
  else if c = 'r' then '\r'
  else c

/-- The loop of `ini::detail::unescape`: the `Bool` is the `escaped` flag. -/
def unescapeAux : Bool → List Char → List Char
  | _, [] => []
  | true, c :: rest => unescMap c :: unescapeAux false rest
  | false, c :: rest =>
      if c = '\\' then unescapeAux true rest
      else c :: unescapeAux false rest

/-- `ini::detail::unescape`. -/
def unescape (s : List Char) : List Char := unescapeAux false s

/-- The `escaped` flag of `ini::detail::unescape` after processing
the given characters from the given starting flag. -/
def escState : Bool → List Char → Bool
  | e, [] => e
  | true, _ :: rest => escState false rest
  | false, c :: rest =>
      if c = '\\' then escState true rest else escState false rest

/-- Per-character encoding of `ini::detail::escape` (its `switch`). -/
def escapeChar (c : Char) : List Char :=
  if c = '"' then ['\\', '"']
  else if c = '\'' then ['\\', '\'']
  else if c = '\\' then ['\\', '\\']
  else if c = '\n' then ['\\', 'n']
  else if c = '\t' then ['\\', 't']
  else if c = '\r' then ['\\', 'r']
  else [c]

/-- `ini::detail::escape`. -/
def escape (s : List Char) : List Char := s.flatMap escapeChar

/-- First-match lookup in a section (`unordered_map::find`). -/
def secFind (k : List Char) : Sect → Option (List Char)
  | [] => none
  | (k', v) :: rest => if k' = k then some v else secFind k rest

/-- First-match lookup of a section in the document (`unordered_map::find`). -/
def cfgFind (s : List Char) : Config → Option Sect
  | [] => none
  | (s', sec) :: rest => if s' = s then some sec else cfgFind s rest

/-- Insert-or-assign of a key in a section (`section[key] = value`). -/
def secSet (k v : List Char) : Sect → Sect
  | [] => [(k, v)]
  | (k', v') :: rest => if k' = k then (k, v) :: rest else (k', v') :: secSet k v rest

/-- Insert-or-assign through the document (`config[section][key] = value`). -/
def cfgSet (s k v : List Char) : Config → Config
  | [] => [(s, [(k, v)])]
  | (s', sec) :: rest =>
      if s' = s then (s, secSet k v sec) :: rest else (s', sec) :: cfgSet s k v rest

/-- The quote-aware comment scanner of `ini::Parser::load` (lines 109-127):
returns the line truncated at the first comment start under the active
policy.  `sq`/`dq` are `inside_single_quote`/`inside_double_quote`,
`prev` the previous character (`none` at the first position). -/
def stripComment (strict : Bool) (sq dq : Bool) (prev : Option Char) :
    List Char → List Char
  | [] => []
  | c :: rest =>
      let dq' := if c = '"' && !sq then !dq else dq
      let sq' := if c = '\'' && !dq then !sq else sq
      if (c = ';' || c = '#') && !sq' && !dq' &&
         !(strict && (match prev with | some p => !isSpaceC p | none => false)) then
        []
      else
        c :: stripComment strict sq' dq' (some c) rest

/-- Comment stripping followed by the re-trim of `load` (lines 124-127). -/
def scanLine (strict : Bool) (l : List Char) : List Char :=
  trim (stripComment strict false false none l)

/-- `line.find('=')` and the split of `load` lines 136-140: the part before
the first `=` and the part after it. -/
def splitEq : List Char → Option (List Char × List Char)
  | [] => none
  | c :: rest =>
      if c = '=' then some ([], rest)
      else match splitEq rest with
        | none => none
        | some (a, b) => some (c :: a, b)

/-- Is the character a value-quoting character (`"` or `'`)? -/
def isQuote (c : Char) : Bool := c = '"' || c = '\''

/-- Recording a key-value pair into the document (`load` lines 154-158):
duplicate keys in the current section are a hard error. -/
def insertKV (st : List Char × Config) (key value : List Char) :
    Except ErrorCode (List Char × Config) :=
  if secFind key ((cfgFind st.1 st.2).getD []) ≠ none then .error .DuplicateKey
  else .ok (st.1, cfgSet st.1 key value st.2)

/-- Processing of one physical line by `ini::Parser::load` (body of the
`while (std::getline...)` loop).  The state is the current section name
and the document built so far. -/
def processLine (strict : Bool) (st : List Char × Config) (raw : List Char) :
    Except ErrorCode (List Char × Config) :=
  let line := trim raw
  if line = [] then .ok st
  else if line.head? = some ';' ∨ line.head? = some '#' then .ok st
  else
    let line := scanLine strict line
    if line = [] then .ok st
    else if line.head? = some '[' ∧ line.getLast? = some ']' then
      let inner := trim ((line.drop 1).dropLast)
      if inner = [] then .error .InvalidSection
      else .ok (inner, st.2)
    else
      match splitEq line with
      | none => .error .InvalidLine
      | some (k, v) =>
        let key := trim k
        let rawVal := trim v
        if key = [] then .error .EmptyKey
        else
          match rawVal.head? with
          | none => insertKV st key rawVal
          | some q =>
            if isQuote q then
              if rawVal.length < 2 ∨ rawVal.getLast? ≠ some q then
                .error .UnmatchedQuotes
              else insertKV st key (unescape ((rawVal.drop 1).dropLast))
            else insertKV st key rawVal

/-- The whole `getline` loop of `load`: processes lines until the first
error; returns the final error code and the state at that point. -/
def runLines (strict : Bool) (st : List Char × Config) :
    List (List Char) → ErrorCode × (List Char × Config)
  | [] => (.Success, st)
  | l :: rest =>
      match processLine strict st l with
      | .ok st' => runLines strict st' rest
      | .error e => (e, st)

/-- `std::getline` splitting of a character stream into physical lines. -/
def splitLines : List Char → List (List Char)
  | [] => []
  | c :: rest =>
      if c = '\n' then [] :: splitLines rest
      else match splitLines rest with
        | [] => [[c]]
        | l :: ls => (c :: l) :: ls

/-- `ini::Parser::load`: `none` models a file that cannot be opened
(`FileNotFound`, document untouched); otherwise the document is cleared
and the lines are parsed from scratch. -/
def load (strict : Bool) (file : Option (List Char)) (cfg : Config) :
    ErrorCode × Config :=
  match file with
  | none => (.FileNotFound, cfg)
  | some content =>
      let r := runLines strict ([], []) (splitLines content)
      (r.1, r.2.2)

/-- `ini::Parser::get`. -/
def get (cfg : Config) (s k dflt : List Char) : List Char :=
  match cfgFind s cfg with
  | some sec => (secFind k sec).getD dflt
  | none => dflt

/-- `ini::Parser::set`. -/
def set (cfg : Config) (sect key value : List Char) : ErrorCode × Config :=
  let tk := trim key
  if tk = [] then (.EmptyKey, cfg)
  else
    let ts := trim sect
    if ts.any (fun c => c = '[' || c = ']') then (.InvalidSection, cfg)
    else (.Success, cfgSet ts tk value cfg)

/-- The quoting decision of `ini::Parser::save`
(`value.find_first_of(" ;#\"\n\t\r")`). -/
def needsQuotes (v : List Char) : Bool :=
  v.any (fun c => c = ' ' || c = ';' || c = '#' || c = '"' ||
                  c = '\n' || c = '\t' || c = '\r')

/-- One key-value output line of `ini::Parser::save`. -/
def saveKV (k v : List Char) : List Char :=
  k ++ '=' :: (if needsQuotes v then '"' :: (escape v ++ ['"']) else v) ++ ['\n']

/-- `ini::Parser::save`: the character stream written on success
(global section first when present and nonempty, then the named sections;
iteration order is the store's order). -/
def save (cfg : Config) : List Char :=
  (match cfgFind [] cfg with
   | some sec =>
      if sec = [] then []
      else sec.flatMap (fun kv => saveKV kv.1 kv.2) ++ ['\n']
   | none => []) ++
  cfg.flatMap (fun e =>
    if e.1 = [] then []
    else '[' :: e.1 ++ ']' :: '\n' :: (e.2.flatMap (fun kv => saveKV kv.1 kv.2) ++ ['\n']))

/-- Character list of a string literal. -/
def str (s : String) : List Char := s.data

instance : DecidableEq (List Char × Config) := instDecidableEqProd

instance : DecidableEq (ErrorCode × (List Char × Config)) := instDecidableEqProd

instance : DecidableEq (ErrorCode × Config) := instDecidableEqProd

/-- Invariant of the document store: every section present in the
document holds at least one key-value pair. -/
def sectionsNonempty (cfg : Config) : Prop := ∀ e ∈ cfg, e.2 ≠ []

/-! ### Helper lemmas -/

theorem splitEq_append (a b : List Char) (h : '=' ∉ a) :
    splitEq (a ++ '=' :: b) = some (a, b) := by
  induction a with
  | nil => simp [splitEq]
  | cons c rest ih =>
    have hc : c ≠ '=' := fun hc => h (hc ▸ List.mem_cons_self c rest)
    have hr : '=' ∉ rest := fun hm => h (List.mem_cons_of_mem c hm)
    simp [splitEq, hc, ih hr]

theorem splitEq_eq_none (l : List Char) (h : '=' ∉ l) : splitEq l = none := by
  induction l with
  | nil => rfl
  | cons c rest ih =>
    have hc : c ≠ '=' := fun hc => h (hc ▸ List.mem_cons_self c rest)
    have hr : '=' ∉ rest := fun hm => h (List.mem_cons_of_mem c hm)
    simp [splitEq, hc, ih hr]

theorem unescapeAux_append_backslash (s : List Char) :
    ∀ e, escState e s = false →
      unescapeAux e (s ++ ['\\']) = unescapeAux e s := by
  induction s with
  | nil =>
    intro e he
    simp only [escState] at he
    subst he
    rfl
  | cons c rest ih =>
    intro e he
    cases e with
    | true =>
      simp only [escState] at he
      simpa [unescapeAux] using ih false he
    | false =>
      by_cases hc : c = '\\'
      · subst hc
        simp only [escState, if_pos rfl] at he
        simpa [unescapeAux] using ih true he
      · simp only [escState, if_neg hc] at he
        simpa [unescapeAux, hc] using ih false he

theorem processLine_error_code (strict : Bool) (st : List Char × Config)
    (raw : List Char) (e : ErrorCode)
    (h : processLine strict st raw = .error e) : e ≠ .Success := by
  unfold processLine insertKV at h
  dsimp only at h
  repeat' split at h
  all_goals first | (cases h; decide) | simp_all

theorem runLines_append (strict : Bool) (st st' : List Char × Config)
    (ls1 ls2 : List (List Char))
    (h : runLines strict st ls1 = (.Success, st')) :
    runLines strict st (ls1 ++ ls2) = runLines strict st' ls2 := by
  induction ls1 generalizing st with
  | nil =>
    simp only [runLines, Prod.mk.injEq, true_and] at h
    subst h
    rfl
  | cons l rest ih =>
    cases hp : processLine strict st l with
    | ok st1 =>
      simp only [runLines, hp] at h
      simpa [runLines, hp] using ih st1 h
    | error e =>
      simp only [runLines, hp, Prod.mk.injEq] at h
      exact absurd h.1 (processLine_error_code strict st l e hp)

theorem processLine_kv (strict : Bool) (st : List Char × Config) (k v : List Char)
    (h1 : trim (k ++ '=' :: v) = k ++ '=' :: v)
    (h2 : stripComment strict false false none (k ++ '=' :: v) = k ++ '=' :: v)
    (h3 : (k ++ '=' :: v).head? ≠ some ';')
    (h4 : (k ++ '=' :: v).head? ≠ some '#')
    (h5 : ¬((k ++ '=' :: v).head? = some '[' ∧ (k ++ '=' :: v).getLast? = some ']'))
    (h6 : '=' ∉ k) :
    processLine strict st (k ++ '=' :: v) =
      (if trim k = [] then .error .EmptyKey
       else
        match (trim v).head? with
        | none => insertKV st (trim k) (trim v)
        | some q =>
          if isQuote q then
            if (trim v).length < 2 ∨ (trim v).getLast? ≠ some q then
              .error .UnmatchedQuotes
            else insertKV st (trim k) (unescape (((trim v).drop 1).dropLast))
          else insertKV st (trim k) (trim v)) := by
  have hne : (k ++ '=' :: v) ≠ [] := by simp
  have hscan : scanLine strict (k ++ '=' :: v) = k ++ '=' :: v := by
    rw [scanLine, h2, h1]
  unfold processLine
  dsimp only
  rw [h1, if_neg hne, if_neg (not_or.mpr ⟨h3, h4⟩), hscan, if_neg hne,
      if_neg h5, splitEq_append k v h6]

theorem secFind_secSet (k v : List Char) (sec : Sect) :
    secFind k (secSet k v sec) = some v := by
  induction sec with
  | nil => simp [secSet, secFind]
  | cons e rest ih =>
    obtain ⟨k', v'⟩ := e
    by_cases hk : k' = k
    · simp [secSet, hk, secFind]
    · simp [secSet, hk, secFind, ih]

theorem secFind_cfgSet (s k v : List Char) (cfg : Config) :
    secFind k ((cfgFind s (cfgSet s k v cfg)).getD []) = some v := by
  induction cfg with
  | nil => simp [cfgSet, cfgFind, secFind]
  | cons e rest ih =>
    obtain ⟨s', sec⟩ := e
    by_cases hs : s' = s
    · subst hs
      simp [cfgSet, cfgFind, secFind_secSet]
    · simp [cfgSet, cfgFind, hs, ih]

theorem secSet_ne_nil (k v : List Char) (sec : Sect) : secSet k v sec ≠ [] := by
  cases sec with
  | nil => simp [secSet]
  | cons e rest =>
    obtain ⟨a, b⟩ := e
    by_cases h : a = k <;> simp [secSet, h]

theorem cfgSet_nonempty (s k v : List Char) (cfg : Config)
    (h : sectionsNonempty cfg) : sectionsNonempty (cfgSet s k v cfg) := by
  induction cfg with
  | nil =>
    intro e he
    simp only [cfgSet, List.mem_singleton] at he
    subst he
    simp
  | cons p rest ih =>
    obtain ⟨s', sec⟩ := p
    intro e he
    by_cases hs : s' = s
    · simp only [cfgSet, if_pos hs, List.mem_cons] at he
      rcases he with he | he
      · subst he
        exact secSet_ne_nil _ _ _
      · exact h e (List.mem_cons_of_mem _ he)
    · simp only [cfgSet, if_neg hs, List.mem_cons] at he
      rcases he with he | he
      · subst he
        exact h _ (List.mem_cons_self _ _)
      · exact ih (fun x hx => h x (List.mem_cons_of_mem _ hx)) e he

theorem processLine_preserves (strict : Bool) (st st' : List Char × Config)
    (raw : List Char) (h : processLine strict st raw = .ok st')
    (hs : sectionsNonempty st.2) : sectionsNonempty st'.2 := by
  unfold processLine insertKV at h
  dsimp only at h
  repeat' split at h
  all_goals cases h
  all_goals first | exact hs | exact cfgSet_nonempty _ _ _ _ hs

theorem runLines_preserves (strict : Bool) (st : List Char × Config)
    (ls : List (List Char)) (hs : sectionsNonempty st.2) :
    sectionsNonempty (runLines strict st ls).2.2 := by
  induction ls generalizing st with
  | nil => simpa [runLines] using hs
  | cons l rest ih =>
    cases hp : processLine strict st l with
    | ok st1 =>
      simpa [runLines, hp] using ih st1 (processLine_preserves _ _ _ _ hp hs)
    | error e => simpa [runLines, hp] using hs

theorem unescapeAux_escapeChar (c : Char) (t : List Char) :
    unescapeAux false (escapeChar c ++ t) = c :: unescapeAux false t := by
  unfold escapeChar
  split_ifs with h1 h2 h3 h4 h5 h6
  · subst h1; rfl
  · subst h2; rfl
  · subst h3; rfl
  · subst h4; rfl
  · subst h5; rfl
  · subst h6; rfl
  · show unescapeAux false (c :: t) = c :: unescapeAux false t
    simp only [unescapeAux, if_neg h3]

/-! ### Claims -/

/-- C1 (code bug evidence): building a document by a successful
`set("", "k", "'")`, saving it and loading it back does not reproduce the
document: the single-quote value is written unquoted as `k='`, which the
loader rejects with `UnmatchedQuotes`, so the save/load round trip fails. -/
theorem save_load_roundtrip_single_quote_failure :
    (set [] [] (str "k") (str "'")).1 = ErrorCode.Success ∧
    load true (some (save (set [] [] (str "k") (str "'")).2)) [] =
      (ErrorCode.UnmatchedQuotes, []) ∧
    (load true (some (save (set [] [] (str "k") (str "'")).2)) []).2 ≠
      (set [] [] (str "k") (str "'")).2 := by
  refine ⟨rfl, rfl, ?_⟩
  decide

/-- C2: decoding the encoding of any string returns the string exactly:
`unescape (escape s) = s` for every character list `s`. -/
theorem unescape_escape_roundtrip (s : List Char) : unescape (escape s) = s := by
  induction s with
  | nil => rfl
  | cons c rest ih =>
    have hcons : escape (c :: rest) = escapeChar c ++ escape rest := by
      simp [escape]
    rw [unescape, hcons, unescapeAux_escapeChar]
    exact congrArg (c :: ·) ih

/-- C3 (counterexample): decoding the input `a\` does not keep the trailing
backslash: the result is `a`, which does not end in a backslash. -/
theorem trailing_backslash_dropped_cex :
    unescape (str "a\\") = str "a" ∧
    (unescape (str "a\\")).getLast? ≠ some '\\' := ⟨rfl, by decide⟩

/-- C3 (amended): an input ending in a single unescaped backslash decodes
to the decode of the input without that backslash — the trailing backslash
is silently dropped and no error is raised. -/
theorem trailing_backslash_dropped (s : List Char)
    (h : escState false s = false) :
    unescape (s ++ ['\\']) = unescape s :=
  unescapeAux_append_backslash s false h

theorem trailing_backslash_dropped_witness :
    escState false (str "ab") = false ∧
    unescape (str "ab" ++ ['\\']) = unescape (str "ab") :=
  ⟨by decide, trailing_backslash_dropped (str "ab") (by decide)⟩

/-- C4 (counterexample): on the line `'a=b'` the only `=` lies inside
single quotes, yet `load` succeeds, splitting there: it records key `'a`
with value `b'` instead of failing with `InvalidLine`. -/
theorem equals_inside_quotes_cex :
    load true (some (str "'a=b'")) [] =
      (ErrorCode.Success, [([], [(str "'a", str "b'")])]) ∧
    (load true (some (str "'a=b'")) []).1 ≠ ErrorCode.InvalidLine :=
  ⟨rfl, by decide⟩

/-- C4 (amended): the key/value split point is the first `=` anywhere on
the comment-stripped line, regardless of quoting; only a line containing
no `=` at all fails with `InvalidLine`. -/
theorem split_at_first_equals :
    (∀ a b : List Char, '=' ∉ a → splitEq (a ++ '=' :: b) = some (a, b)) ∧
    (∀ (strict : Bool) (st : List Char × Config) (l : List Char),
      l ≠ [] → trim l = l → stripComment strict false false none l = l →
      l.head? ≠ some ';' → l.head? ≠ some '#' →
      ¬(l.head? = some '[' ∧ l.getLast? = some ']') →
      '=' ∉ l →
      processLine strict st l = .error .InvalidLine) := by
  constructor
  · exact splitEq_append
  · intro strict st l h0 h1 h2 h3 h4 h5 h6
    have hscan : scanLine strict l = l := by rw [scanLine, h2, h1]
    unfold processLine
    dsimp only
    rw [h1, if_neg h0, if_neg (not_or.mpr ⟨h3, h4⟩), hscan, if_neg h0,
        if_neg h5, splitEq_eq_none l h6]

theorem split_at_first_equals_witness :
    splitEq (str "ab" ++ '=' :: str "c") = some (str "ab", str "c") ∧
    processLine true ([], []) (str "abc") = .error .InvalidLine :=
  ⟨split_at_first_equals.1 (str "ab") (str "c") (by decide),
   split_at_first_equals.2 true ([], []) (str "abc") (by decide) (by decide)
     (by decide) (by decide) (by decide) (by decide) (by decide)⟩

/-- C5: on the line `key=value#tag` a strict-mode parser records the value
`value#tag` (the `#` is not preceded by whitespace), while a relaxed-mode
parser records `value`. -/
theorem strict_vs_relaxed_comment :
    load true (some (str "key=value#tag")) [] =
      (ErrorCode.Success, [([], [(str "key", str "value#tag")])]) ∧
    load false (some (str "key=value#tag")) [] =
      (ErrorCode.Success, [([], [(str "key", str "value")])]) := ⟨rfl, rfl⟩

/-- C6: when a key-value line re-assigns a key already present in the
current section, the whole load returns `DuplicateKey` with the state
reached before that line, and the remaining lines (arbitrary `ls2`) are
never applied. -/
theorem duplicate_key_aborts (strict : Bool) (ls1 ls2 : List (List Char))
    (sec : List Char) (cfg : Config) (k v : List Char)
    (h0 : runLines strict ([], []) ls1 = (.Success, (sec, cfg)))
    (h1 : trim (k ++ '=' :: v) = k ++ '=' :: v)
    (h2 : stripComment strict false false none (k ++ '=' :: v) = k ++ '=' :: v)
    (h3 : (k ++ '=' :: v).head? ≠ some ';')
    (h4 : (k ++ '=' :: v).head? ≠ some '#')
    (h5 : ¬((k ++ '=' :: v).head? = some '[' ∧ (k ++ '=' :: v).getLast? = some ']'))
    (h6 : '=' ∉ k)
    (h7 : trim k ≠ [])
    (h8 : ((trim v).head?.elim true (fun q => !isQuote q)) = true)
    (h9 : secFind (trim k) ((cfgFind sec cfg).getD []) ≠ none) :
    runLines strict ([], []) (ls1 ++ (k ++ '=' :: v) :: ls2) =
      (.DuplicateKey, (sec, cfg)) := by
  rw [runLines_append strict ([], []) (sec, cfg) ls1 _ h0]
  have hp : processLine strict (sec, cfg) (k ++ '=' :: v) =
      .error .DuplicateKey := by
    rw [processLine_kv strict (sec, cfg) k v h1 h2 h3 h4 h5 h6, if_neg h7]
    cases hq : (trim v).head? with
    | none => simp [insertKV, h9]
    | some q =>
      rw [hq] at h8
      simp only [Option.elim, Bool.not_eq_true'] at h8
      simp [h8, insertKV, h9]
  simp [runLines, hp]

theorem duplicate_key_aborts_witness :
    runLines true ([], [])
      ([str "k=1"] ++ (str "k" ++ '=' :: str "2") :: [str "x=3"]) =
      (.DuplicateKey, ([], [([], [(str "k", str "1")])])) :=
  duplicate_key_aborts true [str "k=1"] [str "x=3"] []
    [([], [(str "k", str "1")])] (str "k") (str "2")
    (by rfl) (by decide) (by decide) (by decide) (by decide)
    (by decide) (by decide) (by decide) (by decide) (by decide)

/-- C7: a key-value line whose trimmed raw value starts with a quote
character but does not both have length at least 2 and end in that same
quote character makes `load` fail with `UnmatchedQuotes`. -/
theorem unmatched_quotes_error (strict : Bool) (st : List Char × Config)
    (k v : List Char) (q : Char)
    (h1 : trim (k ++ '=' :: v) = k ++ '=' :: v)
    (h2 : stripComment strict false false none (k ++ '=' :: v) = k ++ '=' :: v)
    (h3 : (k ++ '=' :: v).head? ≠ some ';')
    (h4 : (k ++ '=' :: v).head? ≠ some '#')
    (h5 : ¬((k ++ '=' :: v).head? = some '[' ∧ (k ++ '=' :: v).getLast? = some ']'))
    (h6 : '=' ∉ k)
    (h7 : trim k ≠ [])
    (h8 : (trim v).head? = some q)
    (h9 : isQuote q = true)
    (h10 : (trim v).length < 2 ∨ (trim v).getLast? ≠ some q) :
    processLine strict st (k ++ '=' :: v) = .error .UnmatchedQuotes := by
  rw [processLine_kv strict st k v h1 h2 h3 h4 h5 h6, if_neg h7, h8]
  dsimp only
  rw [if_pos h9, if_pos h10]

theorem unmatched_quotes_error_witness :
    processLine true ([], []) (str "key" ++ '=' :: str "\"unterminated") =
      .error .UnmatchedQuotes :=
  unmatched_quotes_error true ([], []) (str "key") (str "\"unterminated") '"'
    (by decide) (by decide) (by decide) (by decide) (by decide) (by decide)
    (by decide) (by decide) (by decide) (by decide)

/-- C8: `set` trims the key and fails with `EmptyKey` when it is empty;
otherwise it trims the section and fails with `InvalidSection` when the
trimmed section contains `[` or `]`; otherwise it succeeds, creating the
section on demand and unconditionally overwriting the value stored under
the trimmed (section, key); `set` never returns `DuplicateKey`. -/
theorem set_semantics (cfg : Config) (sect key value : List Char) :
    (trim key = [] → set cfg sect key value = (.EmptyKey, cfg)) ∧
    (trim key ≠ [] → (trim sect).any (fun c => c = '[' || c = ']') = true →
      set cfg sect key value = (.InvalidSection, cfg)) ∧
    (trim key ≠ [] → (trim sect).any (fun c => c = '[' || c = ']') = false →
      set cfg sect key value =
        (.Success, cfgSet (trim sect) (trim key) value cfg) ∧
      secFind (trim key) ((cfgFind (trim sect)
        (set cfg sect key value).2).getD []) = some value) ∧
    (set cfg sect key value).1 ≠ .DuplicateKey := by
  refine ⟨?_, ?_, ?_, ?_⟩
  · intro h
    simp [set, h]
  · intro h1 h2
    simp [set, h1, h2]
  · intro h1 h2
    refine ⟨by simp [set, h1, h2], ?_⟩
    simp [set, h1, h2, secFind_cfgSet]
  · unfold set
    dsimp only
    split_ifs <;> simp

theorem set_semantics_witness :
    secFind (trim (str "k")) ((cfgFind (trim (str "s"))
      (set [(str "s", [(str "k", str "old")])]
        (str "s") (str "k") (str "new")).2).getD []) = some (str "new") :=
  ((set_semantics [(str "s", [(str "k", str "old")])]
      (str "s") (str "k") (str "new")).2.2.1 (by decide) (by decide)).2

/-- C9: a `load` whose file cannot be opened returns `FileNotFound` and
leaves the document exactly as it was; once the file opens, the result is
computed from a cleared document, independently of the prior contents. -/
theorem load_file_not_found_preserves :
    (∀ (strict : Bool) (cfg : Config),
      load strict none cfg = (.FileNotFound, cfg)) ∧
    (∀ (strict : Bool) (content : List Char) (cfg cfg' : Config),
      load strict (some content) cfg = load strict (some content) cfg') :=
  ⟨fun _ _ => rfl, fun _ _ _ _ => rfl⟩

/-- C10: every section present in the document holds at least one
key-value pair, under both `set` and `load` (whatever their outcome); in
particular loading a file consisting of the lone header `[name]` yields an
empty document, with no entry for `name`. -/
theorem sections_nonempty_invariant :
    (∀ (cfg : Config) (sect key value : List Char), sectionsNonempty cfg →
      sectionsNonempty (set cfg sect key value).2) ∧
    (∀ (strict : Bool) (file : Option (List Char)) (cfg : Config),
      sectionsNonempty cfg → sectionsNonempty (load strict file cfg).2) ∧
    load true (some (str "[name]")) [] = (.Success, []) := by
  refine ⟨?_, ?_, rfl⟩
  · intro cfg sect key value h
    unfold set
    dsimp only
    split_ifs with h1 h2
    · exact h
    · exact h
    · exact cfgSet_nonempty _ _ _ _ h
  · intro strict file cfg h
    cases file with
    | none => exact h
    | some content =>
      exact runLines_preserves strict ([], []) (splitLines content)
        (fun e he => absurd he (List.not_mem_nil e))

theorem sections_nonempty_invariant_witness :
    sectionsNonempty ((set [] (str "s") (str "k") (str "v")).2) :=
  sections_nonempty_invariant.1 [] (str "s") (str "k") (str "v")
    (fun e he => absurd he (List.not_mem_nil e))

end IniParser
